import Mathlib

/-!
Shallow embedding of `src/daemon/folder/FolderGroup.cpp` (the librevault
per-folder coordinator).  The Qt `QSet` registries (`remotes_`,
`p2p_folders_digests_`, `p2p_folders_endpoints_`, `remotes_ready_`) are
modelled as duplicate-free lists, `QObject::connect` subscriptions as
explicit subscription lists on the state, and signal emissions / transfer
engine calls as explicit step and effect lists in program order.  `attach`,
`detach` and `handle_handshake` are interpreted as folds over their step
lists, so the order of emissions relative to registry mutations is part of
the model.  Collaborator components that are not part of the source window
(`ChunkStorage::make_bitfield`, the peers' `collect_state`) are abstract
function parameters.
-/

namespace Librevault

/-- A connected peer session (`RemoteFolder` / `P2PFolder`).  `handle` stands
for the object identity (the pointer value), `digest` for
`RemoteFolder::digest()` and `endpoint` for `RemoteFolder::endpoint()`. -/
structure RemoteFolder where
  handle : Nat
  digest : Nat
  endpoint : Nat
  deriving DecidableEq, Repr

/-- `QSet::insert`: idempotent insertion into a duplicate-free list. -/
def setInsert {α : Type} [DecidableEq α] (x : α) (s : List α) : List α :=
  if x ∈ s then s else x :: s

/-- `QSet::remove`: removal of an element from a duplicate-free list. -/
def setRemove {α : Type} [DecidableEq α] (x : α) (s : List α) : List α :=
  s.filter (fun y => decide (y ≠ x))

/-- The registry state owned by `FolderGroup`: `remotes_`,
`p2p_folders_digests_`, `p2p_folders_endpoints_`, `remotes_ready_`, plus the
live `QObject::connect` subscriptions: `handshakeSubs` records peers with the
`handshakeSuccess` connection made in `attach` (line 164), `msgSubs` records
peers with the per-message connections made in `handle_handshake`
(lines 124-146).  Subscription lists are multisets: `connect` never
deduplicates, and nothing in `FolderGroup` disconnects them. -/
structure FolderGroupState where
  remotes : List RemoteFolder
  digests : List Nat
  endpoints : List Nat
  ready : List RemoteFolder
  handshakeSubs : List RemoteFolder
  msgSubs : List RemoteFolder
  deriving DecidableEq, Repr

/-- The state of a freshly constructed `FolderGroup`: no peers attached. -/
def initialState : FolderGroupState := ⟨[], [], [], [], [], []⟩

/-- A single statement executed by `attach`, `detach` or `handle_handshake`,
in source order: signal emissions, transfer-engine calls, and registry
mutations. -/
inductive Step where
  | insertRemote (p : RemoteFolder)
  | insertEndpoint (e : Nat)
  | insertDigest (d : Nat)
  | subscribeHandshake (p : RemoteFolder)
  | emitAttached (p : RemoteFolder)
  | emitDetached (p : RemoteFolder)
  | untrackRemote (p : RemoteFolder)
  | removeDigest (d : Nat)
  | removeEndpoint (e : Nat)
  | removeRemote (p : RemoteFolder)
  | removeReady (p : RemoteFolder)
  | insertReady (p : RemoteFolder)
  | trackRemote (p : RemoteFolder)
  | subscribeMessages (p : RemoteFolder)
  deriving DecidableEq, Repr

/-- Effect of one step on the registry state.  Emissions and engine calls do
not touch the registry. -/
def applyStep (s : FolderGroupState) : Step → FolderGroupState
  | .insertRemote p => { s with remotes := setInsert p s.remotes }
  | .insertEndpoint e => { s with endpoints := setInsert e s.endpoints }
  | .insertDigest d => { s with digests := setInsert d s.digests }
  | .subscribeHandshake p => { s with handshakeSubs := p :: s.handshakeSubs }
  | .emitAttached _ => s
  | .emitDetached _ => s
  | .untrackRemote _ => s
  | .removeDigest d => { s with digests := setRemove d s.digests }
  | .removeEndpoint e => { s with endpoints := setRemove e s.endpoints }
  | .removeRemote p => { s with remotes := setRemove p s.remotes }
  | .removeReady p => { s with ready := setRemove p s.ready }
  | .insertReady p => { s with ready := setInsert p s.ready }
  | .trackRemote _ => s
  | .subscribeMessages p => { s with msgSubs := p :: s.msgSubs }

/-- Run a step list left to right. -/
def applySteps (s : FolderGroupState) (steps : List Step) : FolderGroupState :=
  steps.foldl applyStep s

/-- Whether a step mutates one of the four registry indices. -/
def Step.isRegistryMutation : Step → Bool
  | .insertRemote _ => true
  | .insertEndpoint _ => true
  | .insertDigest _ => true
  | .removeDigest _ => true
  | .removeEndpoint _ => true
  | .removeRemote _ => true
  | .removeReady _ => true
  | .insertReady _ => true
  | _ => false

/-- The duplicate test of `FolderGroup::attach` (lines 152-154): handle,
digest or endpoint already present. -/
def attachDuplicate (s : FolderGroupState) (p : RemoteFolder) : Bool :=
  decide (p ∈ s.remotes ∨ p.digest ∈ s.digests ∨ p.endpoint ∈ s.endpoints)

/-- The statements executed by `FolderGroup::attach` (lines 151-169), in
source order: on a duplicate, nothing; otherwise insert into the three
indices, connect `handshakeSuccess`, and emit `attached`. -/
def attachSteps (s : FolderGroupState) (p : RemoteFolder) : List Step :=
  if attachDuplicate s p then []
  else
    [.insertRemote p, .insertEndpoint p.endpoint, .insertDigest p.digest,
     .subscribeHandshake p, .emitAttached p]

/-- `FolderGroup::attach`: returns whether the peer was admitted, together
with the state after running its step list. -/
def attach (s : FolderGroupState) (p : RemoteFolder) : Bool × FolderGroupState :=
  (!attachDuplicate s p, applySteps s (attachSteps s p))

/-- The statements executed by `FolderGroup::detach` (lines 171-185), in
source order: nothing when the peer is not attached; otherwise emit
`detached`, untrack in the Downloader, then remove from `digests`,
`endpoints`, `remotes` and `ready`.  No `disconnect` appears in the source:
the subscription lists are untouched. -/
def detachSteps (s : FolderGroupState) (p : RemoteFolder) : List Step :=
  if p ∈ s.remotes then
    [.emitDetached p, .untrackRemote p, .removeDigest p.digest,
     .removeEndpoint p.endpoint, .removeRemote p, .removeReady p]
  else []

/-- `FolderGroup::detach`: the state after running its step list. -/
def detach (s : FolderGroupState) (p : RemoteFolder) : FolderGroupState :=
  applySteps s (detachSteps s p)

/-- The registry-visible statements of `FolderGroup::handle_handshake`
(lines 120-149): insert into `remotes_ready_`, track in the Downloader,
install the per-message connections.  The insertion is unconditional: the
source does not check that `origin` is still attached. -/
def handshakeSteps (p : RemoteFolder) : List Step :=
  [.insertReady p, .trackRemote p, .subscribeMessages p]

/-- `FolderGroup::handle_handshake`: the state after running its step list. -/
def handle_handshake (s : FolderGroupState) (p : RemoteFolder) : FolderGroupState :=
  applySteps s (handshakeSteps p)

/-- A path descriptor at one revision; the source only uses
`meta().path_revision()`, so only that much is modelled. -/
structure Meta where
  pathHash : Nat
  revision : Nat
  deriving DecidableEq, Repr

/-- `Meta::path_revision()`: the (path-hash, revision) pair. -/
def Meta.path_revision (m : Meta) : Nat × Nat := (m.pathHash, m.revision)

/-- A `Meta` with its signature blob. -/
structure SignedMeta where
  meta : Meta
  signature : Nat
  deriving DecidableEq, Repr

/-- A call made by `FolderGroup` into a transfer engine or to a peer. -/
inductive Effect where
  | notifyLocalMeta (smeta : SignedMeta) (bitfield : List Bool)
  | broadcastMeta (peers : List RemoteFolder) (revision : Nat × Nat) (bitfield : List Bool)
  | notifyLocalChunk (ctHash : Nat)
  | sendHaveChunk (peer : RemoteFolder) (ctHash : Nat)
  deriving DecidableEq, Repr

/-- `FolderGroup::handle_indexed_meta` (lines 111-117): compute the bitfield
via `ChunkStorage::make_bitfield` (abstract parameter `f`), notify the
Downloader, and have the MetaUploader broadcast to `remotes()`. -/
def handle_indexed_meta (f : Meta → List Bool) (s : FolderGroupState)
    (smeta : SignedMeta) : List Effect :=
  let revision := smeta.meta.path_revision
  let bitfield := f smeta.meta
  [.notifyLocalMeta smeta bitfield, .broadcastMeta s.remotes revision bitfield]

/-- Modelled from the spec: `Uploader::broadcast_chunk(peers, ct_hash)` is
not under `src/`; per the spec it sends `HaveChunk(ct_hash)` to every peer
in its argument list. -/
def broadcast_chunk (peers : List RemoteFolder) (ctHash : Nat) : List Effect :=
  peers.map (fun q => .sendHaveChunk q ctHash)

/-- The `chunkAdded` lambda connected in the constructor (lines 85-88):
`downloader_->notifyLocalChunk(ct_hash); uploader_->broadcast_chunk(remotes(), ct_hash);`.
Note that it passes `remotes()` — all attached peers — not the ready set. -/
def handle_chunk_added (s : FolderGroupState) (ctHash : Nat) : List Effect :=
  Effect.notifyLocalChunk ctHash :: broadcast_chunk s.remotes ctHash

/-- The concatenated sends over a history of `chunkAdded` deliveries, each
recorded with the registry state at send time. -/
def chunkBroadcastTrace (events : List (FolderGroupState × Nat)) : List Effect :=
  (events.map (fun e => handle_chunk_added e.1 e.2)).flatten

/-- Whether an effect is a `HaveMeta` broadcast. -/
def Effect.isBroadcastMeta : Effect → Bool
  | .broadcastMeta _ _ _ => true
  | _ => false

/-- The deferred startup replay registered by the constructor (lines 96-100):
one pass of `handle_indexed_meta` over `meta_storage_->getMeta()`. -/
def startup_replay (f : Meta → List Bool) (s : FolderGroupState)
    (metas : List SignedMeta) : List Effect :=
  (metas.map (handle_indexed_meta f s)).flatten

/-- Signals connected in the constructor (lines 84-90). -/
inductive SignalKey where
  | metaAdded
  | chunkAdded
  | chunkDownloaded
  | timerTimeout
  deriving DecidableEq, Repr

/-- Handlers installed in the constructor (lines 84-90). -/
inductive HandlerKey where
  | handleIndexedMeta
  | chunkAddedHandler
  | putChunk
  | pushState
  deriving DecidableEq, Repr

/-- The connections made in the `FolderGroup` constructor, lines 84-90. -/
def constructorConnections : List (SignalKey × HandlerKey) :=
  [(.metaAdded, .handleIndexedMeta), (.chunkAdded, .chunkAddedHandler),
   (.chunkDownloaded, .putChunk), (.timerTimeout, .pushState)]

/-- A task registered by the constructor: either posted to the event loop
(`QTimer::singleShot(0, ...)`) or run inline during construction. -/
inductive ConstructorTask where
  | deferredToLoop (effects : List Effect)
  | immediate (effects : List Effect)
  deriving DecidableEq, Repr

/-- The index-replay tasks of the constructor: exactly one, and it is posted
to the event loop (lines 96-100); no `handle_indexed_meta` call is made
inline during construction. -/
def constructorIndexTasks (f : Meta → List Bool) (s : FolderGroupState)
    (metas : List SignedMeta) : List ConstructorTask :=
  [.deferredToLoop (startup_replay f s metas)]

/-- The inbound per-peer protocol messages of `RemoteFolder`. -/
inductive PeerMessage where
  | rcvdChoke
  | rcvdUnchoke
  | rcvdInterested
  | rcvdNotInterested
  | rcvdHaveMeta
  | rcvdHaveChunk
  | rcvdMetaRequest
  | rcvdMetaReply
  | rcvdBlockRequest
  | rcvdBlockReply
  deriving DecidableEq, Repr

/-- The four transfer engines owned by `FolderGroup`. -/
inductive Engine where
  | downloader
  | uploader
  | metaDownloader
  | metaUploader
  deriving DecidableEq, Repr

/-- The engine entry points called by the per-peer lambdas. -/
inductive EngineMethod where
  | handleChoke
  | handleUnchoke
  | handleInterested
  | handleNotInterested
  | handleHaveMeta
  | notifyRemoteChunk
  | handleMetaRequest
  | handleMetaReply
  | handleBlockRequest
  | putBlock
  deriving DecidableEq, Repr

/-- One `QObject::connect` call made in `handle_handshake`: the peer whose
signal is subscribed, the message, the context object of the connection, and
the engine method the lambda actually dispatches to. -/
structure Connect where
  peer : RemoteFolder
  message : PeerMessage
  context : Engine
  target : Engine
  method : EngineMethod
  deriving DecidableEq, Repr

/-- The ten `connect` calls of `handle_handshake` (lines 124-146), in source
order.  `rcvdInterested` / `rcvdNotInterested` use the Downloader as the
connection context but dispatch to the Uploader. -/
def handshakeConnects (p : RemoteFolder) : List Connect :=
  [⟨p, .rcvdChoke, .downloader, .downloader, .handleChoke⟩,
   ⟨p, .rcvdUnchoke, .downloader, .downloader, .handleUnchoke⟩,
   ⟨p, .rcvdInterested, .downloader, .uploader, .handleInterested⟩,
   ⟨p, .rcvdNotInterested, .downloader, .uploader, .handleNotInterested⟩,
   ⟨p, .rcvdHaveMeta, .metaDownloader, .metaDownloader, .handleHaveMeta⟩,
   ⟨p, .rcvdHaveChunk, .downloader, .downloader, .notifyRemoteChunk⟩,
   ⟨p, .rcvdMetaRequest, .metaUploader, .metaUploader, .handleMetaRequest⟩,
   ⟨p, .rcvdMetaReply, .metaDownloader, .metaDownloader, .handleMetaReply⟩,
   ⟨p, .rcvdBlockRequest, .uploader, .uploader, .handleBlockRequest⟩,
   ⟨p, .rcvdBlockReply, .downloader, .downloader, .putBlock⟩]

/-- The engine and method a message from peer `p` is dispatched to. -/
def dispatchTarget (p : RemoteFolder) (m : PeerMessage) :
    Option (Engine × EngineMethod) :=
  ((handshakeConnects p).find? (fun c => c.message == m)).map
    (fun c => (c.target, c.method))

/-- A call posted to the event loop instead of being made inline. -/
inductive DeferredCall where
  | metaUploaderHandshake (p : RemoteFolder)
  deriving DecidableEq, Repr

/-- The deferred calls of `handle_handshake`:
`QTimer::singleShot(0, meta_uploader_, [=]{meta_uploader_->handle_handshake(origin);})`
(line 148) — the MetaUploader handshake is posted, not called inline. -/
def handshakeDeferredCalls (p : RemoteFolder) : List DeferredCall :=
  [.metaUploaderHandshake p]

/-- A value handed to `StateCollector::folder_state_set`. -/
inductive StateValue where
  | peerStates (blobs : List Nat)
  | trafficStats (blob : Nat)
  deriving DecidableEq, Repr

/-- `FolderGroup::push_state` (lines 195-204): one `folder_state_set` with
key "peers" holding `collect_state()` of every element of `remotes_`, then
one with key "traffic_stats".  `collect` and the traffic blob are abstract
parameters for the collaborators. -/
def push_state (collect : RemoteFolder → Nat) (traffic : Nat)
    (s : FolderGroupState) : List (String × StateValue) :=
  [("peers", .peerStates (s.remotes.map collect)),
   ("traffic_stats", .trafficStats traffic)]

/-- States reachable from a fresh `FolderGroup` by `attach` and `detach`
calls alone. -/
inductive ReachableAD : FolderGroupState → Prop where
  | start : ReachableAD initialState
  | attachStep (p : RemoteFolder) {s : FolderGroupState} :
      ReachableAD s → ReachableAD (attach s p).2
  | detachStep (p : RemoteFolder) {s : FolderGroupState} :
      ReachableAD s → ReachableAD (detach s p)

/-- States reachable by `attach`, `detach` and `handshakeSuccess` delivery,
where a delivery to `handle_handshake` requires a live `handshakeSuccess`
subscription — exactly the condition Qt imposes, since the connection made
in `attach` is never disconnected by `detach`. -/
inductive ReachableEv : FolderGroupState → Prop where
  | start : ReachableEv initialState
  | attachStep (p : RemoteFolder) {s : FolderGroupState} :
      ReachableEv s → ReachableEv (attach s p).2
  | detachStep (p : RemoteFolder) {s : FolderGroupState} :
      ReachableEv s → ReachableEv (detach s p)
  | handshakeStep (p : RemoteFolder) {s : FolderGroupState} :
      ReachableEv s → p ∈ s.handshakeSubs → ReachableEv (handle_handshake s p)

/-- States reachable when every `handshakeSuccess` delivery happens while
the peer is still attached (the transport contract the code relies on). -/
inductive ReachableHsAttached : FolderGroupState → Prop where
  | start : ReachableHsAttached initialState
  | attachStep (p : RemoteFolder) {s : FolderGroupState} :
      ReachableHsAttached s → ReachableHsAttached (attach s p).2
  | detachStep (p : RemoteFolder) {s : FolderGroupState} :
      ReachableHsAttached s → ReachableHsAttached (detach s p)
  | handshakeStep (p : RemoteFolder) {s : FolderGroupState} :
      ReachableHsAttached s → p ∈ s.remotes →
      ReachableHsAttached (handle_handshake s p)

/-- A sample peer used in concrete witnesses and counterexamples. -/
def pA : RemoteFolder := ⟨1, 10, 100⟩

/-- The state after `attach(pA)` on a fresh group. -/
def sAttached : FolderGroupState := (attach initialState pA).2

/-- `attach(pA); detach(pA)`. -/
def sDetached : FolderGroupState := detach sAttached pA

/-- `attach(pA); detach(pA)`, then a `handshakeSuccess` from `pA` delivered
through the still-live subscription. -/
def sGhost : FolderGroupState := handle_handshake sDetached pA

/-- `attach(pA); handle_handshake(pA); detach(pA)`. -/
def sFull : FolderGroupState := detach (handle_handshake sAttached pA) pA

/-- The structural invariant tying the three indices together: `digests` and
`endpoints` are exactly the images of `remotes`, and all three are
duplicate-free. -/
structure RegistryInv (s : FolderGroupState) : Prop where
  digests_eq : s.digests = s.remotes.map RemoteFolder.digest
  endpoints_eq : s.endpoints = s.remotes.map RemoteFolder.endpoint
  remotes_nodup : s.remotes.Nodup
  digests_nodup : s.digests.Nodup
  endpoints_nodup : s.endpoints.Nodup

theorem mem_setInsert_iff {α : Type} [DecidableEq α] (x y : α) (s : List α) :
    y ∈ setInsert x s ↔ y = x ∨ y ∈ s := by
  unfold setInsert
  by_cases h : x ∈ s
  · simp only [if_pos h]
    constructor
    · exact Or.inr
    · rintro (rfl | hy)
      · exact h
      · exact hy
  · simp [if_neg h]

theorem setInsert_of_not_mem {α : Type} [DecidableEq α] {x : α} {s : List α}
    (h : x ∉ s) : setInsert x s = x :: s := by
  simp [setInsert, h]

theorem mem_setRemove_iff {α : Type} [DecidableEq α] (x y : α) (s : List α) :
    y ∈ setRemove x s ↔ y ∈ s ∧ y ≠ x := by
  simp [setRemove]

theorem attach_of_dup (s : FolderGroupState) (p : RemoteFolder)
    (h : p ∈ s.remotes ∨ p.digest ∈ s.digests ∨ p.endpoint ∈ s.endpoints) :
    attach s p = (false, s) := by
  have hd : attachDuplicate s p = true := decide_eq_true h
  simp [attach, attachSteps, hd, applySteps]

theorem attach_of_fresh (s : FolderGroupState) (p : RemoteFolder)
    (h1 : p ∉ s.remotes) (h2 : p.digest ∉ s.digests)
    (h3 : p.endpoint ∉ s.endpoints) :
    attach s p =
      (true,
       { remotes := p :: s.remotes
         digests := p.digest :: s.digests
         endpoints := p.endpoint :: s.endpoints
         ready := s.ready
         handshakeSubs := p :: s.handshakeSubs
         msgSubs := s.msgSubs }) := by
  have hd : attachDuplicate s p = false := by
    simp [attachDuplicate, h1, h2, h3]
  simp [attach, attachSteps, hd, applySteps, applyStep,
        setInsert_of_not_mem h1, setInsert_of_not_mem h2, setInsert_of_not_mem h3]

theorem detach_of_not_mem (s : FolderGroupState) (p : RemoteFolder)
    (h : p ∉ s.remotes) : detach s p = s := by
  simp [detach, detachSteps, h, applySteps]

theorem detach_of_mem (s : FolderGroupState) (p : RemoteFolder)
    (h : p ∈ s.remotes) :
    detach s p =
      { remotes := setRemove p s.remotes
        digests := setRemove p.digest s.digests
        endpoints := setRemove p.endpoint s.endpoints
        ready := setRemove p s.ready
        handshakeSubs := s.handshakeSubs
        msgSubs := s.msgSubs } := by
  simp [detach, detachSteps, h, applySteps, applyStep]

theorem not_mem_detach_remotes (s : FolderGroupState) (p : RemoteFolder) :
    p ∉ (detach s p).remotes := by
  by_cases h : p ∈ s.remotes
  · rw [detach_of_mem s p h]
    simp [mem_setRemove_iff]
  · rw [detach_of_not_mem s p h]
    exact h

/-- Claim C1: `attach(p)` returns true iff `p`'s handle, digest and endpoint
are all absent from the registry; on admission it inserts `p` into `remotes`,
`digests` and `endpoints`, subscribes to `p`'s `handshakeSuccess` signal and
emits `attached(p)`; on any duplicate it returns false leaving the registry
and subscriptions unchanged, so a second `attach(p)` after a successful one
returns false with the registry unchanged. -/
theorem fg_attach_admits (s : FolderGroupState) (p : RemoteFolder) :
    ((attach s p).1 = true ↔
      (p ∉ s.remotes ∧ p.digest ∉ s.digests ∧ p.endpoint ∉ s.endpoints))
    ∧ ((p ∈ s.remotes ∨ p.digest ∈ s.digests ∨ p.endpoint ∈ s.endpoints) →
        attach s p = (false, s))
    ∧ ((p ∉ s.remotes ∧ p.digest ∉ s.digests ∧ p.endpoint ∉ s.endpoints) →
        attach s p =
          (true,
           { remotes := p :: s.remotes
             digests := p.digest :: s.digests
             endpoints := p.endpoint :: s.endpoints
             ready := s.ready
             handshakeSubs := p :: s.handshakeSubs
             msgSubs := s.msgSubs })
        ∧ Step.subscribeHandshake p ∈ attachSteps s p
        ∧ Step.emitAttached p ∈ attachSteps s p
        ∧ attach (attach s p).2 p = (false, (attach s p).2)) := by
  refine ⟨?_, fun h => attach_of_dup s p h, fun h => ?_⟩
  · simp [attach, attachDuplicate, not_or]
  · obtain ⟨h1, h2, h3⟩ := h
    have hd : attachDuplicate s p = false := by
      simp [attachDuplicate, h1, h2, h3]
    refine ⟨attach_of_fresh s p h1 h2 h3, ?_, ?_, ?_⟩
    · simp [attachSteps, hd]
    · simp [attachSteps, hd]
    · have hmem : p ∈ (attach s p).2.remotes := by
        rw [attach_of_fresh s p h1 h2 h3]
        exact List.mem_cons_self p s.remotes
      exact attach_of_dup (attach s p).2 p (Or.inl hmem)

theorem fg_attach_admits_witness :
    (attach initialState pA).1 = true
    ∧ attach (attach initialState pA).2 pA
        = (false, (attach initialState pA).2) := by
  have h := fg_attach_admits initialState pA
  exact ⟨h.1.mpr (by decide), (h.2.2 (by decide)).2.2.2⟩

/-- Claim C2: `detach(p)` on an unattached peer is a no-op (so a second
`detach(p)` changes nothing); on an attached peer it emits `detached(p)`
before any registry mutation, instructs the Downloader to untrack `p`, and
removes `p` from `digests`, `endpoints`, `remotes` and `ready`. -/
theorem fg_detach_spec (s : FolderGroupState) (p : RemoteFolder) :
    (p ∉ s.remotes → detach s p = s ∧ detachSteps s p = [])
    ∧ detach (detach s p) p = detach s p
    ∧ (p ∈ s.remotes →
        detachSteps s p =
          [.emitDetached p, .untrackRemote p, .removeDigest p.digest,
           .removeEndpoint p.endpoint, .removeRemote p, .removeReady p]
        ∧ detach s p =
            { remotes := setRemove p s.remotes
              digests := setRemove p.digest s.digests
              endpoints := setRemove p.endpoint s.endpoints
              ready := setRemove p s.ready
              handshakeSubs := s.handshakeSubs
              msgSubs := s.msgSubs }
        ∧ (detachSteps s p).head? = some (Step.emitDetached p)
        ∧ (∀ i : Fin (detachSteps s p).length,
            ((detachSteps s p).get i).isRegistryMutation = true → 0 < i.1)) := by
  refine ⟨fun h => ⟨detach_of_not_mem s p h, by simp [detachSteps, h]⟩,
          detach_of_not_mem (detach s p) p (not_mem_detach_remotes s p),
          fun h => ⟨by simp [detachSteps, h], detach_of_mem s p h, ?_, ?_⟩⟩
  · simp [detachSteps, h]
  · have hsteps : detachSteps s p =
        [.emitDetached p, .untrackRemote p, .removeDigest p.digest,
         .removeEndpoint p.endpoint, .removeRemote p, .removeReady p] := by
      simp [detachSteps, h]
    rw [hsteps]
    intro i
    fin_cases i <;> simp [Step.isRegistryMutation]

theorem fg_detach_spec_witness :
    detach initialState pA = initialState
    ∧ (detachSteps (attach initialState pA).2 pA).head?
        = some (Step.emitDetached pA) := by
  have h1 := (fg_detach_spec initialState pA).1 (by decide)
  have h2 := (fg_detach_spec (attach initialState pA).2 pA).2.2 (by decide)
  exact ⟨h1.1, h2.2.2.1⟩

theorem registryInv_attach (s : FolderGroupState) (p : RemoteFolder)
    (h : RegistryInv s) : RegistryInv (attach s p).2 := by
  by_cases hd : p ∈ s.remotes ∨ p.digest ∈ s.digests ∨ p.endpoint ∈ s.endpoints
  · rw [attach_of_dup s p hd]
    exact h
  · push_neg at hd
    obtain ⟨h1, h2, h3⟩ := hd
    rw [attach_of_fresh s p h1 h2 h3]
    exact ⟨by simp [h.digests_eq], by simp [h.endpoints_eq],
           List.nodup_cons.mpr ⟨h1, h.remotes_nodup⟩,
           List.nodup_cons.mpr ⟨h2, h.digests_nodup⟩,
           List.nodup_cons.mpr ⟨h3, h.endpoints_nodup⟩⟩

theorem registryInv_detach (s : FolderGroupState) (p : RemoteFolder)
    (h : RegistryInv s) : RegistryInv (detach s p) := by
  by_cases hm : p ∈ s.remotes
  · have hinjd : ∀ q ∈ s.remotes, q.digest = p.digest → q = p := by
      intro q hq hqd
      exact List.inj_on_of_nodup_map (h.digests_eq ▸ h.digests_nodup) hq hm hqd
    have hinje : ∀ q ∈ s.remotes, q.endpoint = p.endpoint → q = p := by
      intro q hq hqe
      exact List.inj_on_of_nodup_map (h.endpoints_eq ▸ h.endpoints_nodup) hq hm hqe
    have hdig : setRemove p.digest s.digests
        = (setRemove p s.remotes).map RemoteFolder.digest := by
      rw [h.digests_eq]
      unfold setRemove
      rw [List.filter_map]
      congr 1
      apply List.filter_congr
      intro q hq
      by_cases hqp : q = p
      · subst hqp
        simp
      · have hne : q.digest ≠ p.digest := fun hcd => hqp (hinjd q hq hcd)
        simp [hqp, hne]
    have hend : setRemove p.endpoint s.endpoints
        = (setRemove p s.remotes).map RemoteFolder.endpoint := by
      rw [h.endpoints_eq]
      unfold setRemove
      rw [List.filter_map]
      congr 1
      apply List.filter_congr
      intro q hq
      by_cases hqp : q = p
      · subst hqp
        simp
      · have hne : q.endpoint ≠ p.endpoint := fun hce => hqp (hinje q hq hce)
        simp [hqp, hne]
    rw [detach_of_mem s p hm]
    exact ⟨hdig, hend, h.remotes_nodup.filter _, h.digests_nodup.filter _,
           h.endpoints_nodup.filter _⟩
  · rw [detach_of_not_mem s p hm]
    exact h

theorem reachableAD_inv {s : FolderGroupState} (h : ReachableAD s) :
    RegistryInv s := by
  induction h with
  | start => exact ⟨rfl, rfl, List.nodup_nil, List.nodup_nil, List.nodup_nil⟩
  | attachStep p _ ih => exact registryInv_attach _ p ih
  | detachStep p _ ih => exact registryInv_detach _ p ih

/-- Claim C3: in every state reachable by `attach` and `detach` calls, a peer
is in `remotes` exactly when its digest is in `digests` and its endpoint is
in `endpoints`: every attached peer contributes its digest and endpoint, each
digest and endpoint in the indices belongs to an attached peer, and no two
attached peers share a digest or an endpoint, so the three indices are in
bijection and have equal cardinality. -/
theorem fg_registry_bijection {s : FolderGroupState} (h : ReachableAD s) :
    s.digests.length = s.remotes.length
    ∧ s.endpoints.length = s.remotes.length
    ∧ (∀ p ∈ s.remotes, p.digest ∈ s.digests ∧ p.endpoint ∈ s.endpoints)
    ∧ (∀ d ∈ s.digests, ∃ p ∈ s.remotes, p.digest = d)
    ∧ (∀ e ∈ s.endpoints, ∃ p ∈ s.remotes, p.endpoint = e)
    ∧ (∀ p ∈ s.remotes, ∀ q ∈ s.remotes, p.digest = q.digest → p = q)
    ∧ (∀ p ∈ s.remotes, ∀ q ∈ s.remotes, p.endpoint = q.endpoint → p = q) := by
  have hi := reachableAD_inv h
  refine ⟨by simp [hi.digests_eq], by simp [hi.endpoints_eq],
          fun p hp => ⟨?_, ?_⟩, fun d hd => ?_, fun e he => ?_,
          fun p hp q hq hpq =>
            List.inj_on_of_nodup_map (hi.digests_eq ▸ hi.digests_nodup) hp hq hpq,
          fun p hp q hq hpq =>
            List.inj_on_of_nodup_map (hi.endpoints_eq ▸ hi.endpoints_nodup) hp hq hpq⟩
  · rw [hi.digests_eq]
    exact List.mem_map_of_mem _ hp
  · rw [hi.endpoints_eq]
    exact List.mem_map_of_mem _ hp
  · rw [hi.digests_eq] at hd
    obtain ⟨p, hp, hpd⟩ := List.mem_map.mp hd
    exact ⟨p, hp, hpd⟩
  · rw [hi.endpoints_eq] at he
    obtain ⟨p, hp, hpe⟩ := List.mem_map.mp he
    exact ⟨p, hp, hpe⟩

theorem fg_registry_bijection_witness :
    (attach initialState pA).2.digests.length
      = (attach initialState pA).2.remotes.length :=
  (fg_registry_bijection (ReachableAD.attachStep pA ReachableAD.start)).1

theorem handle_handshake_eq (s : FolderGroupState) (p : RemoteFolder) :
    handle_handshake s p =
      { s with ready := setInsert p s.ready, msgSubs := p :: s.msgSubs } := by
  simp [handle_handshake, handshakeSteps, applySteps, applyStep]

/-- Claim C4 counterexample: after `attach(pA); handle_handshake(pA);
detach(pA)` the peer is gone from the registry, yet both the
`handshakeSuccess` subscription made in `attach` and the per-message
subscriptions made in `handle_handshake` are still live — `detach` contains
no `disconnect` — so a further `handshakeSuccess` from the detached peer is
still delivered (the final `ReachableEv` step). -/
theorem fg_detach_subscriptions_cex :
    ReachableEv sFull
    ∧ sFull.remotes = []
    ∧ pA ∈ sFull.handshakeSubs
    ∧ pA ∈ sFull.msgSubs
    ∧ ReachableEv (handle_handshake sFull pA) := by
  have hr : ReachableEv sFull :=
    ReachableEv.detachStep pA
      (ReachableEv.handshakeStep pA (ReachableEv.attachStep pA ReachableEv.start)
        (by decide))
  exact ⟨hr, by decide, by decide, by decide,
         ReachableEv.handshakeStep pA hr (by decide)⟩

/-- Claim C4 (amended): `detach(p)` removes the peer from the four registry
indices but releases none of the signal subscriptions established at
`attach` or in `handle_handshake`; both subscription lists are left exactly
as they were, so events from the peer can still be delivered after `detach`
returns (until the peer object itself is destroyed). -/
theorem fg_detach_subscriptions_amended (s : FolderGroupState)
    (p : RemoteFolder) :
    (detach s p).handshakeSubs = s.handshakeSubs
    ∧ (detach s p).msgSubs = s.msgSubs := by
  by_cases hm : p ∈ s.remotes
  · rw [detach_of_mem s p hm]
    exact ⟨rfl, rfl⟩
  · rw [detach_of_not_mem s p hm]
    exact ⟨rfl, rfl⟩

/-- Claim C5 counterexample: the sequence `attach(pA); detach(pA);
handshakeSuccess(pA)` is possible — the subscription survives `detach` — and
leaves `pA` in `ready` while `remotes` is empty, because
`handle_handshake` inserts into `remotes_ready_` without checking
attachment.  So `ready ⊆ remotes` fails on a reachable state. -/
theorem fg_ready_subset_cex :
    ReachableEv sGhost ∧ pA ∈ sGhost.ready ∧ pA ∉ sGhost.remotes :=
  ⟨ReachableEv.handshakeStep pA
     (ReachableEv.detachStep pA (ReachableEv.attachStep pA ReachableEv.start))
     (by decide),
   by decide, by decide⟩

/-- Claim C5 (amended): `ready ⊆ remotes` holds in every state reachable by
`attach`, `detach` and `handshakeSuccess` deliveries provided every delivery
happens while the peer is still attached; a delivery after `detach` (which
the surviving subscription permits) is exactly the case that breaks the
inclusion. -/
theorem fg_ready_subset_amended {s : FolderGroupState}
    (h : ReachableHsAttached s) : ∀ q ∈ s.ready, q ∈ s.remotes := by
  induction h with
  | start =>
      intro q hq
      simp [initialState] at hq
  | attachStep p _ ih =>
      rename_i s' h'
      intro q hq
      by_cases hd : p ∈ s'.remotes ∨ p.digest ∈ s'.digests
          ∨ p.endpoint ∈ s'.endpoints
      · rw [attach_of_dup s' p hd] at hq ⊢
        exact ih q hq
      · push_neg at hd
        rw [attach_of_fresh s' p hd.1 hd.2.1 hd.2.2] at hq ⊢
        exact List.mem_cons_of_mem _ (ih q hq)
  | detachStep p _ ih =>
      rename_i s' h'
      intro q hq
      by_cases hm : p ∈ s'.remotes
      · rw [detach_of_mem s' p hm] at hq ⊢
        obtain ⟨hq1, hq2⟩ := (mem_setRemove_iff p q s'.ready).mp hq
        exact (mem_setRemove_iff p q s'.remotes).mpr ⟨ih q hq1, hq2⟩
      · rw [detach_of_not_mem s' p hm] at hq ⊢
        exact ih q hq
  | handshakeStep p _ hmem ih =>
      rename_i s' h'
      intro q hq
      rw [handle_handshake_eq s' p] at hq ⊢
      rcases (mem_setInsert_iff p q s'.ready).mp hq with rfl | hq'
      · exact hmem
      · exact ih q hq'

theorem fg_ready_subset_amended_witness :
    pA ∈ (handle_handshake (attach initialState pA).2 pA).remotes :=
  fg_ready_subset_amended
    (ReachableHsAttached.handshakeStep pA
      (ReachableHsAttached.attachStep pA ReachableHsAttached.start) (by decide))
    pA (by decide)

theorem sendHaveChunk_mem_trace {events : List (FolderGroupState × Nat)}
    {q : RemoteFolder} {c : Nat}
    (h : Effect.sendHaveChunk q c ∈ chunkBroadcastTrace events) :
    c ∈ events.map Prod.snd := by
  induction events with
  | nil => simp [chunkBroadcastTrace] at h
  | cons e es ih =>
      have hsplit : chunkBroadcastTrace (e :: es)
          = handle_chunk_added e.1 e.2 ++ chunkBroadcastTrace es := by
        simp [chunkBroadcastTrace]
      rw [hsplit] at h
      rcases List.mem_append.mp h with h1 | h1
      · simp only [handle_chunk_added, broadcast_chunk, List.mem_cons,
                   List.mem_map, Effect.sendHaveChunk.injEq] at h1
        rcases h1 with h1 | ⟨a, _, _, hc⟩
        · exact absurd h1 (by simp)
        · rw [List.map_cons]
          exact hc ▸ List.mem_cons_self _ _
      · exact List.mem_cons_of_mem _ (ih h1)

theorem count_broadcast_chunk (peers : List RemoteFolder) (p : RemoteFolder)
    (ct : Nat) :
    (broadcast_chunk peers ct).count (Effect.sendHaveChunk p ct)
      = peers.count p := by
  have hinj : Function.Injective (fun q => Effect.sendHaveChunk q ct) := by
    intro a b hab
    injection hab with h1 h2
  exact List.count_map_of_injective peers _ hinj p

theorem count_chunkBroadcastTrace_le_one (p : RemoteFolder) (ct : Nat) :
    ∀ events : List (FolderGroupState × Nat),
      (events.map Prod.snd).Nodup → (∀ e ∈ events, e.1.remotes.Nodup) →
      (chunkBroadcastTrace events).count (Effect.sendHaveChunk p ct) ≤ 1 := by
  intro events
  induction events with
  | nil =>
      intro _ _
      simp [chunkBroadcastTrace]
  | cons e es ih =>
      intro hcts hnd
      rw [List.map_cons] at hcts
      obtain ⟨hnotin, hcts'⟩ := List.nodup_cons.mp hcts
      have hnd' : ∀ x ∈ es, x.1.remotes.Nodup :=
        fun x hx => hnd x (List.mem_cons_of_mem _ hx)
      have hsplit : chunkBroadcastTrace (e :: es)
          = handle_chunk_added e.1 e.2 ++ chunkBroadcastTrace es := by
        simp [chunkBroadcastTrace]
      rw [hsplit, List.count_append]
      by_cases heq : e.2 = ct
      · have hhead : (handle_chunk_added e.1 e.2).count (Effect.sendHaveChunk p ct)
            ≤ 1 := by
          rw [handle_chunk_added,
              List.count_cons_of_ne (by simp), heq, count_broadcast_chunk]
          exact List.nodup_iff_count_le_one.mp (hnd e (List.mem_cons_self _ _)) p
        have htail : (chunkBroadcastTrace es).count (Effect.sendHaveChunk p ct)
            = 0 := by
          rw [List.count_eq_zero]
          intro hmem
          exact hnotin (heq ▸ sendHaveChunk_mem_trace hmem)
        omega
      · have hhead : (handle_chunk_added e.1 e.2).count (Effect.sendHaveChunk p ct)
            = 0 := by
          rw [List.count_eq_zero]
          intro hmem
          simp only [handle_chunk_added, broadcast_chunk, List.mem_cons,
                     List.mem_map, Effect.sendHaveChunk.injEq] at hmem
          rcases hmem with h1 | ⟨a, _, _, hc⟩
          · exact absurd h1 (by simp)
          · exact heq hc
        have htail := ih hcts' hnd'
        omega

/-- Claim C6 counterexample: with `pA` attached but not yet handshaken
(`ready` is empty and `pA` is not in it), a `chunkAdded(7)` delivery sends
`HaveChunk(7)` to `pA`: the constructor lambda passes `remotes()` — all
attached peers — to `broadcast_chunk`, not the ready set, so the recipient
set is not a subset of `ready` at send time. -/
theorem fg_broadcast_chunk_cex :
    ReachableEv sAttached
    ∧ handle_chunk_added sAttached 7
        = [Effect.notifyLocalChunk 7, Effect.sendHaveChunk pA 7]
    ∧ sAttached.ready = [] :=
  ⟨ReachableEv.attachStep pA ReachableEv.start, by decide, by decide⟩

/-- Claim C6 (amended): the recipients of each `HaveChunk(ct_hash)` broadcast
are the attached peers (`remotes`) at send time — not the ready set — and,
since `chunkAdded` fires at most once per `ct_hash` (collaborator contract,
modelled as distinct hashes in the history) and the registry is
duplicate-free, the message is sent at most once per `(peer, ct_hash)`. -/
theorem fg_broadcast_chunk_amended (events : List (FolderGroupState × Nat))
    (p : RemoteFolder) (ct : Nat)
    (hcts : (events.map Prod.snd).Nodup)
    (hnd : ∀ e ∈ events, e.1.remotes.Nodup) :
    (chunkBroadcastTrace events).count (Effect.sendHaveChunk p ct) ≤ 1
    ∧ (∀ e ∈ events, ∀ q c,
        Effect.sendHaveChunk q c ∈ handle_chunk_added e.1 e.2 →
        q ∈ e.1.remotes) := by
  refine ⟨count_chunkBroadcastTrace_le_one p ct events hcts hnd, ?_⟩
  intro e _ q c hq
  simp only [handle_chunk_added, broadcast_chunk, List.mem_cons,
             List.mem_map, Effect.sendHaveChunk.injEq] at hq
  rcases hq with h1 | ⟨a, ha, haq, _⟩
  · exact absurd h1 (by simp)
  · exact haq ▸ ha

theorem fg_broadcast_chunk_amended_witness :
    (chunkBroadcastTrace [(sAttached, 7)]).count (Effect.sendHaveChunk pA 7)
      ≤ 1 :=
  (fg_broadcast_chunk_amended [(sAttached, 7)] pA 7 (by decide) (by decide)).1


/-- Claim C7: `handle_indexed_meta(smeta)` computes the bitfield for
`smeta`'s Meta from ChunkStorage (the abstract `f`), notifies the Downloader
of local meta availability with that bitfield, and has the MetaUploader
broadcast `HaveMeta(revision, bitfield)` to all currently attached peers
(`remotes()`); the constructor connects it to every
`MetaStorage::metaAdded` emission. -/
theorem fg_handle_indexed_meta_spec (f : Meta → List Bool)
    (s : FolderGroupState) (smeta : SignedMeta) :
    handle_indexed_meta f s smeta =
      [Effect.notifyLocalMeta smeta (f smeta.meta),
       Effect.broadcastMeta s.remotes smeta.meta.path_revision (f smeta.meta)]
    ∧ (SignalKey.metaAdded, HandlerKey.handleIndexedMeta)
        ∈ constructorConnections :=
  ⟨rfl, by simp [constructorConnections]⟩

/-- Claim C8: on `handshakeSuccess` from a peer, `handle_handshake` marks it
ready, tells the Downloader to track it, subscribes — for this peer only —
to the ten inbound protocol messages, dispatching choke/unchoke, `HaveChunk`
and `BlockReply` to the Downloader, interest changes and `BlockRequest` to
the Uploader (the interest pair through a Downloader-context connection),
`HaveMeta` and `MetaReply` to the MetaDownloader, `MetaRequest` to the
MetaUploader, and posts `MetaUploader::handle_handshake(remote)` to the
event loop instead of calling it inline. -/
theorem fg_handshake_wiring_spec (s : FolderGroupState) (p : RemoteFolder) :
    (handle_handshake s p).ready = setInsert p s.ready
    ∧ Step.trackRemote p ∈ handshakeSteps p
    ∧ (∀ c ∈ handshakeConnects p, c.peer = p)
    ∧ (handshakeConnects p).map Connect.message =
        [.rcvdChoke, .rcvdUnchoke, .rcvdInterested, .rcvdNotInterested,
         .rcvdHaveMeta, .rcvdHaveChunk, .rcvdMetaRequest, .rcvdMetaReply,
         .rcvdBlockRequest, .rcvdBlockReply]
    ∧ dispatchTarget p .rcvdChoke = some (.downloader, .handleChoke)
    ∧ dispatchTarget p .rcvdUnchoke = some (.downloader, .handleUnchoke)
    ∧ dispatchTarget p .rcvdInterested = some (.uploader, .handleInterested)
    ∧ dispatchTarget p .rcvdNotInterested
        = some (.uploader, .handleNotInterested)
    ∧ dispatchTarget p .rcvdHaveMeta = some (.metaDownloader, .handleHaveMeta)
    ∧ dispatchTarget p .rcvdHaveChunk = some (.downloader, .notifyRemoteChunk)
    ∧ dispatchTarget p .rcvdMetaRequest
        = some (.metaUploader, .handleMetaRequest)
    ∧ dispatchTarget p .rcvdMetaReply = some (.metaDownloader, .handleMetaReply)
    ∧ dispatchTarget p .rcvdBlockRequest
        = some (.uploader, .handleBlockRequest)
    ∧ dispatchTarget p .rcvdBlockReply = some (.downloader, .putBlock)
    ∧ handshakeDeferredCalls p = [.metaUploaderHandshake p] := by
  refine ⟨by rw [handle_handshake_eq], by simp [handshakeSteps], ?_, rfl,
          rfl, rfl, rfl, rfl, rfl, rfl, rfl, rfl, rfl, rfl, rfl⟩
  intro c hc
  fin_cases hc <;> rfl

theorem fg_handshake_wiring_witness :
    (handle_handshake initialState pA).ready = setInsert pA initialState.ready :=
  (fg_handshake_wiring_spec initialState pA).1

/-- Claim C9: the constructor posts the index replay to the event loop
(`QTimer::singleShot(0, ...)`) rather than running it inline, and the
deferred replay feeds every already-indexed meta through
`handle_indexed_meta` exactly once, producing exactly one `HaveMeta`
broadcast per locally-known meta, in index order. -/
theorem fg_startup_replay_spec (f : Meta → List Bool) (s : FolderGroupState)
    (metas : List SignedMeta) :
    constructorIndexTasks f s metas
      = [ConstructorTask.deferredToLoop (startup_replay f s metas)]
    ∧ (startup_replay f s metas).filter Effect.isBroadcastMeta
        = metas.map (fun m =>
            Effect.broadcastMeta s.remotes m.meta.path_revision (f m.meta))
    ∧ ((startup_replay f s metas).filter Effect.isBroadcastMeta).length
        = metas.length := by
  have hfilter : (startup_replay f s metas).filter Effect.isBroadcastMeta
      = metas.map (fun m =>
          Effect.broadcastMeta s.remotes m.meta.path_revision (f m.meta)) := by
    induction metas with
    | nil => rfl
    | cons m ms ih =>
        have hsplit : startup_replay f s (m :: ms)
            = handle_indexed_meta f s m ++ startup_replay f s ms := by
          simp [startup_replay]
        rw [hsplit, List.filter_append, ih]
        rfl
  exact ⟨rfl, hfilter, by rw [hfilter]; exact List.length_map _ _⟩

/-- Claim C10: every `push_state` invocation hands the state collector one
"peers" array entry per element of `remotes` — every attached peer,
regardless of readiness: the output is invariant under any value of the
`ready` set — and sets "traffic_stats" in the same invocation. -/
theorem fg_push_state_spec (collect : RemoteFolder → Nat) (traffic : Nat)
    (s : FolderGroupState) :
    push_state collect traffic s =
      [("peers", StateValue.peerStates (s.remotes.map collect)),
       ("traffic_stats", StateValue.trafficStats traffic)]
    ∧ (s.remotes.map collect).length = s.remotes.length
    ∧ (∀ r, push_state collect traffic { s with ready := r }
        = push_state collect traffic s) :=
  ⟨rfl, List.length_map _ _, fun _ => rfl⟩

end Librevault
